import Mathlib

/-!
Verification of the HOAG outer-loop solver (`_minimize_lbfgsb` in
`hoag/hoag_kernel.py`) against its natural-language specification.

The Python routine is shallowly embedded over ℝ.  The five user-supplied
oracle functions (`h_sol_approx`, `h_hessian`, `h_crossed`, `g_func_grad`,
`g_cross`) together with the external conjugate-gradient solver
`scipy.sparse.linalg.cg` are modelled as an abstract `Oracles` record; per
the interface table of the spec the Krylov solver reports a Boolean
convergence flag.  `numpy` float arithmetic is modelled by real arithmetic;
`np.inf` (the initial value of `g_func_old`) is modelled by `⊤ : EReal`,
and the comparison of the sufficient-decrease test is carried out in
`EReal` exactly as IEEE arithmetic carries it out with `inf` against
finite values.  Dead code of the source (the `wa`/`iwa`/`task` work arrays,
`maxcor`, `ftol`/`factr`, `disp`, the `nbd`/`low_bnd`/`upper_bnd` arrays
computed from `bounds` and never read afterwards, the `print` calls and
the optional `callback`) is omitted; the two entry validations that can
raise, and everything the outer loop does, are kept.
-/

namespace Hoag

open Classical

/-- Euclidean norm of a vector, `scipy.linalg.norm`. -/
noncomputable def l2norm {n : ℕ} (v : Fin n → ℝ) : ℝ :=
  Real.sqrt (∑ i, v i ^ 2)

/-- The `tolerance_decrease` configuration string.  `other` stands for any
string different from the four recognized ones. -/
inductive TolMode
  | exponential
  | quadratic
  | cubic
  | exact
  | other
deriving DecidableEq

/-- The exceptions `_minimize_lbfgsb` can raise: the two entry
`ValueError`s, the bare `ValueError` after a failed cg solve, and the
`NotImplementedError` of the tolerance-decay dispatch. -/
inductive HErr
  | boundsLen    -- ValueError('length of x0 != length of bounds')
  | maxlsNonpos  -- ValueError('maxls must be positive.')
  | cgFail       -- ValueError  (raised when cg reports non-convergence)
  | notImpl      -- NotImplementedError (unrecognized tolerance_decrease)
deriving DecidableEq

/-- Ghost instrumentation: how many times each oracle has been invoked.
The Python code has no such variable; each field is incremented exactly at
the corresponding call site of the loop body. -/
structure OracleCount where
  sol : ℕ     -- h_sol_approx
  hess : ℕ    -- h_hessian
  gfg : ℕ     -- g_func_grad
  cg : ℕ      -- splinalg.cg
  gcross : ℕ  -- g_cross
  hcross : ℕ  -- h_crossed
deriving DecidableEq

/-- One oracle invocation of each kind. -/
def bump (c : OracleCount) : OracleCount :=
  ⟨c.sol + 1, c.hess + 1, c.gfg + 1, c.cg + 1, c.gcross + 1, c.hcross + 1⟩

/-- The external collaborators of the outer loop.  `d` is the inner-problem
dimension, `p` the number of hyperparameters. -/
structure Oracles (d p : ℕ) where
  /-- `h_sol_approx(x0, lambdak, epsilon_tol)`. -/
  h_sol_approx : (Fin d → ℝ) → (Fin p → ℝ) → ℝ → (Fin d → ℝ)
  /-- `h_hessian(x0, lambdak)`, the matrix-free Hessian operator (the
  `LinearOperator` wrapper of the source adds nothing semantically). -/
  h_hessian : (Fin d → ℝ) → (Fin p → ℝ) → ((Fin d → ℝ) → (Fin d → ℝ))
  /-- `h_crossed(x0, lambdak)`, a `p × d` matrix. -/
  h_crossed : (Fin d → ℝ) → (Fin p → ℝ) → Matrix (Fin p) (Fin d) ℝ
  /-- `g_func_grad(x0, lambdak) = (g_func, g_grad)`. -/
  g_func_grad : (Fin d → ℝ) → (Fin p → ℝ) → ℝ × (Fin d → ℝ)
  /-- `g_cross(x0, lambdak)`. -/
  g_cross : (Fin d → ℝ) → (Fin p → ℝ) → (Fin p → ℝ)
  /-- `splinalg.cg(Hessfunc, g_grad, x0=qk, tol=epsilon_tol)`; per the
  spec's interface table it returns the solution and a convergence flag. -/
  cg : ((Fin d → ℝ) → (Fin d → ℝ)) → (Fin d → ℝ) → Option (Fin d → ℝ) → ℝ →
    ((Fin d → ℝ) × Bool)

/-- The mutable state of one outer iteration of `_minimize_lbfgsb`. -/
structure HState (d p : ℕ) where
  /-- `x0`, the warm-started primal solution. -/
  x0 : Fin d → ℝ
  /-- `lambdak`, the hyperparameter vector. -/
  lambdak : Fin p → ℝ
  /-- `qk`, the warm-started Krylov vector (`None` initially). -/
  qk : Option (Fin d → ℝ)
  /-- `L_lambda`, the Lipschitz estimate (`None` until initialized). -/
  L_lambda : Option ℝ
  /-- `g_func_old`, initialized to `np.inf`. -/
  g_func_old : EReal
  /-- `epsilon_tol`, the inner tolerance. -/
  epsilon_tol : ℝ
  /-- `old_grads`, the list of hypergradient norms. -/
  old_grads : List ℝ
  /-- Ghost oracle-invocation counters (not present in the source). -/
  calls : OracleCount

/-- `epsilon_tol_init = 1e-3`. -/
noncomputable def epsilon_tol_init : ℝ := 1e-3

/-- `exact_epsilon = 1e-24`. -/
noncomputable def exact_epsilon : ℝ := 1e-24

/-- The state before the loop: `qk = None`, `L_lambda = None`,
`g_func_old = np.inf`, `old_grads = []`, and `epsilon_tol` set to
`exact_epsilon` in `'exact'` mode and to `epsilon_tol_init` otherwise. -/
noncomputable def initState {d p : ℕ} (x0 : Fin d → ℝ) (lambda0 : Fin p → ℝ)
    (mode : TolMode) : HState d p :=
  { x0 := x0
    lambdak := lambda0
    qk := none
    L_lambda := none
    g_func_old := ⊤
    epsilon_tol := if mode = TolMode.exact then exact_epsilon else epsilon_tol_init
    old_grads := []
    calls := ⟨0, 0, 0, 0, 0, 0⟩ }

/-- `x0 = h_sol_approx(x0, lambdak, epsilon_tol)`: the value returned by
the inner oracle this iteration. -/
noncomputable def innerX {d p : ℕ} (O : Oracles d p) (s : HState d p) : Fin d → ℝ :=
  O.h_sol_approx s.x0 s.lambdak s.epsilon_tol

/-- `qk, success = splinalg.cg(Hessfunc, g_grad, x0=qk, tol=epsilon_tol)`,
with `Hessfunc = h_hessian(x0, lambdak)` and
`g_grad = g_func_grad(x0, lambdak)[1]` at the fresh `x0`. -/
noncomputable def cgOut {d p : ℕ} (O : Oracles d p) (s : HState d p) :
    (Fin d → ℝ) × Bool :=
  O.cg (O.h_hessian (innerX O s) s.lambdak)
    (O.g_func_grad (innerX O s) s.lambdak).2 s.qk s.epsilon_tol

/-- `g_func`, the outer loss value returned this iteration. -/
noncomputable def gval {d p : ℕ} (O : Oracles d p) (s : HState d p) : ℝ :=
  (O.g_func_grad (innerX O s) s.lambdak).1

/-- `grad_lambda = g_cross(x0, lambdak) - h_crossed(x0, lambdak).dot(qk)`. -/
noncomputable def hypergrad {d p : ℕ} (O : Oracles d p) (s : HState d p) :
    Fin p → ℝ :=
  O.g_cross (innerX O s) s.lambdak -
    (O.h_crossed (innerX O s) s.lambdak).mulVec (cgOut O s).1

/-- The sufficient-decrease test
`g_func <= g_func_old + C*epsilon_tol + old_epsilon_tol*(C+1)*incr
 - (L_lambda/2.)*incr*incr` with `C = 1`; `g_func_old` lives in `EReal`
because it is initialized to `np.inf`. -/
def suffCond (g_func : ℝ) (g_func_old : EReal) (epsNew epsOld incr L : ℝ) :
    Prop :=
  let C : ℝ := 1
  (g_func : EReal) ≤ g_func_old + ((C * epsNew : ℝ) : EReal)
    + ((epsOld * (C + 1) * incr : ℝ) : EReal)
    - (((L / 2) * incr * incr : ℝ) : EReal)

/-- The `.. decrease accuracy ..` dispatch on `tolerance_decrease`; an
unrecognized mode raises `NotImplementedError`. -/
noncomputable def decay (mode : TolMode) (it : ℕ) (epsilon_tol : ℝ) :
    Except HErr ℝ :=
  match mode with
  | TolMode.quadratic => Except.ok (epsilon_tol_init / (it : ℝ) ^ (2 : ℕ))
  | TolMode.cubic => Except.ok (epsilon_tol_init / (it : ℝ) ^ (3 : ℕ))
  | TolMode.exponential => Except.ok (epsilon_tol * 0.5)
  | TolMode.exact => Except.ok 1e-24
  | TolMode.other => Except.error HErr.notImpl

/-- The state committed by an iteration that takes a step, given the
`L_lambda` in force at the step (`L`) and the decayed tolerance before the
floor (`e1`): `lambdak = lambdak - (1/L_lambda) * pk` with
`pk = grad_lambda`, `epsilon_tol = max(e1, exact_epsilon)`,
`incr = norm(lambdak_new - old_lambdak)`, and `L_lambda` multiplied by
`0.8` when the sufficient-decrease test holds and by `1.2` otherwise. -/
noncomputable def stepOut {d p : ℕ} (O : Oracles d p) (s : HState d p)
    (L e1 : ℝ) : HState d p :=
  { x0 := innerX O s
    lambdak := s.lambdak - (1 / L) • hypergrad O s
    qk := some (cgOut O s).1
    L_lambda := some (if suffCond (gval O s) s.g_func_old (max e1 exact_epsilon)
        s.epsilon_tol (l2norm ((s.lambdak - (1 / L) • hypergrad O s) - s.lambdak)) L
      then L * 0.8 else L * 1.2)
    g_func_old := (gval O s : EReal)
    epsilon_tol := max e1 exact_epsilon
    old_grads := s.old_grads ++ [l2norm (hypergrad O s)]
    calls := bump s.calls }

/-- The state committed by the degenerate-gradient `continue` branch:
only `x0`, `qk`, `old_grads` and `epsilon_tol *= 0.1` change; `lambdak`,
`L_lambda` and `g_func_old` are untouched.  Note the absence of the
`exact_epsilon` floor on this path. -/
noncomputable def degOut {d p : ℕ} (O : Oracles d p) (s : HState d p) :
    HState d p :=
  { s with
    x0 := innerX O s
    qk := some (cgOut O s).1
    epsilon_tol := s.epsilon_tol * 0.1
    old_grads := s.old_grads ++ [l2norm (hypergrad O s)]
    calls := bump s.calls }

/-- The tail of the loop body once the `L_lambda` in force is known:
`lambdak` update, tolerance decay (which may raise), floor, and the
sufficient-decrease tuning of `L_lambda`. -/
noncomputable def stepBody {d p : ℕ} (O : Oracles d p) (mode : TolMode)
    (it : ℕ) (s : HState d p) (L : ℝ) : Except HErr (HState d p) :=
  match decay mode it s.epsilon_tol with
  | Except.error e => Except.error e
  | Except.ok e1 => Except.ok (stepOut O s L e1)

/-- One iteration of `for it in range(1, maxiter)`: inner solve, Hessian
operator, outer value/gradient, Krylov solve (raising `ValueError` when it
reports non-convergence), hypergradient, then either the degenerate
`continue` branch (`L_lambda` still `None` and the recorded gradient norm
`old_grads[-1]` equal to `0`) or the stepping tail, with `L_lambda`
initialized to `5 * norm(grad_lambda)` when it was `None`. -/
noncomputable def step {d p : ℕ} (O : Oracles d p) (mode : TolMode) (it : ℕ)
    (s : HState d p) : Except HErr (HState d p) :=
  if (cgOut O s).2 = false then Except.error HErr.cgFail
  else
    match s.L_lambda with
    | none =>
      if l2norm (hypergrad O s) = 0 then Except.ok (degOut O s)
      else stepBody O mode it s (5 * l2norm (hypergrad O s))
    | some L => stepBody O mode it s L

/-- `for it in range(1, maxiter)` unrolled: run `k` iterations starting at
iteration counter `it`, propagating any raise. -/
noncomputable def loopFrom {d p : ℕ} (O : Oracles d p) (mode : TolMode) :
    ℕ → ℕ → HState d p → Except HErr (HState d p)
  | _, 0, s => Except.ok s
  | it, k + 1, s =>
    match step O mode it s with
    | Except.error e => Except.error e
    | Except.ok s' => loopFrom O mode (it + 1) k s'

/-- `_minimize_lbfgsb` up to (and including) the loop, returning the final
state: validate the `bounds` length and `maxls`, build the initial state,
and run the `maxiter - 1` iterations `it = 1, …, maxiter - 1`. -/
noncomputable def minimizeAux {d p : ℕ} (O : Oracles d p) (x0 : Fin d → ℝ)
    (bounds : Option (List (Option ℝ × Option ℝ))) (lambda0 : Fin p → ℝ)
    (maxiter : ℕ) (maxls : ℤ) (mode : TolMode) : Except HErr (HState d p) :=
  let bounds' := bounds.getD (List.replicate d (none, none))
  if bounds'.length ≠ d then Except.error HErr.boundsLen
  else if ¬ maxls > 0 then Except.error HErr.maxlsNonpos
  else loopFrom O mode 1 (maxiter - 1) (initState x0 lambda0 mode)

/-- `_minimize_lbfgsb`: the routine returns `x0, lambdak, 0`. -/
noncomputable def minimize_lbfgsb {d p : ℕ} (O : Oracles d p) (x0 : Fin d → ℝ)
    (bounds : Option (List (Option ℝ × Option ℝ))) (lambda0 : Fin p → ℝ)
    (maxiter : ℕ) (maxls : ℤ) (mode : TolMode) :
    Except HErr ((Fin d → ℝ) × (Fin p → ℝ) × ℕ) :=
  (minimizeAux O x0 bounds lambda0 maxiter maxls mode).map
    (fun s => (s.x0, s.lambdak, 0))

/-! ### Elementary facts about the embedded pieces -/

lemma l2norm_nonneg {n : ℕ} (v : Fin n → ℝ) : 0 ≤ l2norm v :=
  Real.sqrt_nonneg _

lemma l2norm_zero {n : ℕ} : l2norm (0 : Fin n → ℝ) = 0 := by
  simp [l2norm]

lemma l2norm_pos_of_ne {n : ℕ} {v : Fin n → ℝ} (h : l2norm v ≠ 0) :
    0 < l2norm v :=
  lt_of_le_of_ne (l2norm_nonneg v) (Ne.symm h)

/-- With `g_func_old = np.inf` the sufficient-decrease test always holds:
the right-hand side evaluates to `inf`. -/
lemma suffCond_top (g epsNew epsOld incr L : ℝ) :
    suffCond g ⊤ epsNew epsOld incr L := by
  unfold suffCond
  simp only [EReal.top_add_coe, EReal.top_sub_coe]
  exact le_top

/-! ### Unfolding lemmas for `step` -/

lemma stepBody_eq_ok {d p : ℕ} (O : Oracles d p) (mode : TolMode) (it : ℕ)
    (s : HState d p) (L e1 : ℝ)
    (hd : decay mode it s.epsilon_tol = Except.ok e1) :
    stepBody O mode it s L = Except.ok (stepOut O s L e1) := by
  unfold stepBody
  rw [hd]

lemma stepBody_other {d p : ℕ} (O : Oracles d p) (it : ℕ)
    (s : HState d p) (L : ℝ) :
    stepBody O TolMode.other it s L = Except.error HErr.notImpl := by
  unfold stepBody decay
  rfl

lemma step_eq_deg {d p : ℕ} (O : Oracles d p) (mode : TolMode) (it : ℕ)
    (s : HState d p) (hcg : (cgOut O s).2 = true)
    (hL : s.L_lambda = none) (hg : l2norm (hypergrad O s) = 0) :
    step O mode it s = Except.ok (degOut O s) := by
  unfold step
  rw [hcg, hL, if_neg (by simp), if_pos hg]

lemma step_eq_body_none {d p : ℕ} (O : Oracles d p) (mode : TolMode) (it : ℕ)
    (s : HState d p) (hcg : (cgOut O s).2 = true)
    (hL : s.L_lambda = none) (hg : l2norm (hypergrad O s) ≠ 0) :
    step O mode it s = stepBody O mode it s (5 * l2norm (hypergrad O s)) := by
  unfold step
  rw [hcg, hL, if_neg (by simp), if_neg hg]

lemma step_eq_body_some {d p : ℕ} (O : Oracles d p) (mode : TolMode) (it : ℕ)
    (s : HState d p) (L : ℝ) (hcg : (cgOut O s).2 = true)
    (hL : s.L_lambda = some L) :
    step O mode it s = stepBody O mode it s L := by
  unfold step
  rw [hcg, hL, if_neg (by simp)]

lemma step_eq_fail {d p : ℕ} (O : Oracles d p) (mode : TolMode) (it : ℕ)
    (s : HState d p) (hcg : (cgOut O s).2 = false) :
    step O mode it s = Except.error HErr.cgFail := by
  unfold step
  rw [hcg, if_pos rfl]

/-- Inversion: a successful iteration either ran the degenerate
`continue` branch or committed a step with the `L_lambda` in force and a
successfully decayed tolerance. -/
lemma step_ok_inv {d p : ℕ} {O : Oracles d p} {mode : TolMode} {it : ℕ}
    {s s' : HState d p} (h : step O mode it s = Except.ok s') :
    (cgOut O s).2 = true ∧
      ((s.L_lambda = none ∧ l2norm (hypergrad O s) = 0 ∧ s' = degOut O s) ∨
        (∃ L e1, decay mode it s.epsilon_tol = Except.ok e1 ∧
          s' = stepOut O s L e1 ∧
          ((s.L_lambda = none ∧ l2norm (hypergrad O s) ≠ 0 ∧
              L = 5 * l2norm (hypergrad O s)) ∨
            s.L_lambda = some L))) := by
  by_cases hcg : (cgOut O s).2 = false
  · rw [step_eq_fail O mode it s hcg] at h
    exact absurd h (by simp)
  · have hcg' : (cgOut O s).2 = true := by
      cases hb : (cgOut O s).2
      · exact absurd hb hcg
      · rfl
    refine ⟨hcg', ?_⟩
    cases hL : s.L_lambda with
    | none =>
      by_cases hg : l2norm (hypergrad O s) = 0
      · rw [step_eq_deg O mode it s hcg' hL hg] at h
        exact Or.inl ⟨rfl, hg, (by simpa using h.symm)⟩
      · rw [step_eq_body_none O mode it s hcg' hL hg] at h
        cases hd : decay mode it s.epsilon_tol with
        | error e =>
          rw [stepBody, hd] at h
          exact absurd h (by simp)
        | ok e1 =>
          rw [stepBody_eq_ok O mode it s _ e1 hd] at h
          exact Or.inr ⟨5 * l2norm (hypergrad O s), e1, rfl,
            (by simpa using h.symm), Or.inl ⟨rfl, hg, rfl⟩⟩
    | some L =>
      rw [step_eq_body_some O mode it s L hcg' hL] at h
      cases hd : decay mode it s.epsilon_tol with
      | error e =>
        rw [stepBody, hd] at h
        exact absurd h (by simp)
      | ok e1 =>
        rw [stepBody_eq_ok O mode it s L e1 hd] at h
        exact Or.inr ⟨L, e1, rfl, (by simpa using h.symm), Or.inr rfl⟩

/-- Every successful iteration invokes each oracle exactly once. -/
lemma step_calls {d p : ℕ} {O : Oracles d p} {mode : TolMode} {it : ℕ}
    {s s' : HState d p} (h : step O mode it s = Except.ok s') :
    s'.calls = bump s.calls := by
  rcases step_ok_inv h with ⟨-, hcase⟩
  rcases hcase with ⟨-, -, rfl⟩ | ⟨L, e1, -, rfl, -⟩
  · rfl
  · rfl

lemma loopFrom_calls {d p : ℕ} (O : Oracles d p) (mode : TolMode) :
    ∀ (k it : ℕ) (s s' : HState d p),
      loopFrom O mode it k s = Except.ok s' →
      s'.calls.sol = s.calls.sol + k ∧ s'.calls.hess = s.calls.hess + k ∧
      s'.calls.gfg = s.calls.gfg + k ∧ s'.calls.cg = s.calls.cg + k ∧
      s'.calls.gcross = s.calls.gcross + k ∧
      s'.calls.hcross = s.calls.hcross + k := by
  intro k
  induction k with
  | zero =>
    intro it s s' h
    simp only [loopFrom] at h
    cases h
    simp
  | succ n ih =>
    intro it s s' h
    simp only [loopFrom] at h
    cases hs : step O mode it s with
    | error e => rw [hs] at h; exact absurd h (by simp)
    | ok t =>
      rw [hs] at h
      have ht := step_calls hs
      have := ih (it + 1) t s' h
      rw [ht] at this
      simp only [bump] at this
      omega

/-! ### Concrete instances used by witnesses and counterexamples -/

/-- Trivial oracles with everywhere-zero cross derivatives (so the
hypergradient vanishes) and an always-converging cg solve. -/
noncomputable def Od : Oracles 1 1 :=
  { h_sol_approx := fun x _ _ => x
    h_hessian := fun _ _ => fun v => v
    h_crossed := fun _ _ => 0
    g_func_grad := fun _ _ => (0, fun _ => 0)
    g_cross := fun _ _ => 0
    cg := fun _ _ _ _ => (fun _ => 0, true) }

/-- Like `Od` but with a constant-one `g_cross`, so the hypergradient is
the all-ones vector. -/
noncomputable def Og : Oracles 1 1 :=
  { Od with g_cross := fun _ _ => fun _ => 1 }

/-- Like `Od` but the cg solve reports non-convergence. -/
noncomputable def Ofail : Oracles 1 1 :=
  { Od with cg := fun _ _ _ _ => (fun _ => 0, false) }

/-- Initial state in `'exponential'` mode. -/
noncomputable def sExp : HState 1 1 :=
  initState (fun _ => 0) (fun _ => 0) TolMode.exponential

/-- Initial state in `'exact'` mode. -/
noncomputable def sExact : HState 1 1 :=
  initState (fun _ => 0) (fun _ => 0) TolMode.exact

/-- A stepping state: `sExp` with `L_lambda` already initialized to `1`. -/
noncomputable def sStep : HState 1 1 :=
  { sExp with L_lambda := some 1 }

lemma hypergrad_Od (s : HState 1 1) : hypergrad Od s = 0 := by
  funext i
  simp [hypergrad, Od, Matrix.zero_mulVec]

lemma hypergrad_Og (s : HState 1 1) : hypergrad Og s = fun _ => 1 := by
  funext i
  simp [hypergrad, Og, Od, Matrix.zero_mulVec]

lemma l2norm_ones : l2norm (fun _ => (1 : ℝ) : Fin 1 → ℝ) = 1 := by
  simp [l2norm]

lemma demo_deg_exact :
    step Od TolMode.exact 1 sExact = Except.ok (degOut Od sExact) :=
  step_eq_deg Od TolMode.exact 1 sExact rfl rfl
    (by rw [hypergrad_Od, l2norm_zero])

lemma demo_step_sStep :
    step Od TolMode.exponential 1 sStep =
      Except.ok (stepOut Od sStep 1 (sStep.epsilon_tol * 0.5)) :=
  (step_eq_body_some Od TolMode.exponential 1 sStep 1 rfl rfl).trans
    (stepBody_eq_ok Od TolMode.exponential 1 sStep 1 _ rfl)

lemma demo_step_Og :
    step Og TolMode.exponential 1 sExp =
      Except.ok (stepOut Og sExp (5 * l2norm (hypergrad Og sExp))
        (sExp.epsilon_tol * 0.5)) :=
  (step_eq_body_none Og TolMode.exponential 1 sExp rfl rfl
      (by rw [hypergrad_Og, l2norm_ones]; norm_num)).trans
    (stepBody_eq_ok Og TolMode.exponential 1 sExp _ _ rfl)

lemma minimizeAux_ok_inv {d p : ℕ} {O : Oracles d p} {x0 : Fin d → ℝ}
    {bounds : Option (List (Option ℝ × Option ℝ))} {l0 : Fin p → ℝ}
    {m : ℕ} {maxls : ℤ} {mode : TolMode} {s' : HState d p}
    (h : minimizeAux O x0 bounds l0 m maxls mode = Except.ok s') :
    loopFrom O mode 1 (m - 1) (initState x0 l0 mode) = Except.ok s' := by
  unfold minimizeAux at h
  dsimp only at h
  by_cases h1 : (bounds.getD (List.replicate d (none, none))).length ≠ d
  · rw [if_pos h1] at h
    exact absurd h (by simp)
  · rw [if_neg h1] at h
    by_cases h2 : ¬ maxls > 0
    · rw [if_pos h2] at h
      exact absurd h (by simp)
    · rw [if_neg h2] at h
      exact h

lemma step_L_pos {d p : ℕ} {O : Oracles d p} {mode : TolMode} {it : ℕ}
    {s s' : HState d p} (hok : step O mode it s = Except.ok s')
    (hpos : ∀ L0, s.L_lambda = some L0 → 0 < L0) :
    ∀ L', s'.L_lambda = some L' → 0 < L' := by
  rcases step_ok_inv hok with ⟨-, hc⟩
  rcases hc with ⟨hL, -, rfl⟩ | ⟨L, e1, -, rfl, hcase⟩
  · intro L' h
    simp only [degOut] at h
    rw [hL] at h
    exact absurd h (by simp)
  · have hLpos : 0 < L := by
      rcases hcase with ⟨-, hg, rfl⟩ | hsome
      · have := l2norm_pos_of_ne hg
        positivity
      · exact hpos L hsome
    intro L' h
    simp only [stepOut, Option.some.injEq] at h
    rw [← h]
    by_cases hcnd : suffCond (gval O s) s.g_func_old (max e1 exact_epsilon)
        s.epsilon_tol
        (l2norm ((s.lambdak - (1 / L) • hypergrad O s) - s.lambdak)) L
    · rw [if_pos hcnd]
      positivity
    · rw [if_neg hcnd]
      positivity

lemma loopFrom_L_pos {d p : ℕ} (O : Oracles d p) (mode : TolMode) :
    ∀ (k it : ℕ) (t t' : HState d p),
      (∀ L0, t.L_lambda = some L0 → 0 < L0) →
      loopFrom O mode it k t = Except.ok t' →
      ∀ L', t'.L_lambda = some L' → 0 < L' := by
  intro k
  induction k with
  | zero =>
    intro it t t' hpos h
    simp only [loopFrom] at h
    cases h
    exact hpos
  | succ n ih =>
    intro it t t' hpos h
    simp only [loopFrom] at h
    cases hs : step O mode it t with
    | error e => rw [hs] at h; exact absurd h (by simp)
    | ok u => rw [hs] at h; exact ih (it + 1) u t' (step_L_pos hs hpos) h

/-! ### The claims -/

/-- **C1.** In every outer iteration, after the inner solve returns `x`
and the Krylov solve returns `q`, the hypergradient committed for that
iteration — the value whose norm is appended to `old_grads` and, in a
stepping iteration, the direction of the `lambdak` update — equals
`g_cross(x, λ)` minus the product of the (transposed, per the spec
formula) cross-derivative matrix with `q`, written here as the row-vector
product of `q` with `h_crossed(x, λ)ᵀ`. -/
theorem C1_hypergradient_formula {d p : ℕ} (O : Oracles d p)
    (mode : TolMode) (it : ℕ) (s s' : HState d p)
    (hok : step O mode it s = Except.ok s') :
    s'.old_grads = s.old_grads ++
      [l2norm (O.g_cross (innerX O s) s.lambdak -
        Matrix.vecMul (cgOut O s).1
          (Matrix.transpose (O.h_crossed (innerX O s) s.lambdak)))] ∧
    (∀ L, s.L_lambda = some L →
      s'.lambdak = s.lambdak - (1 / L) •
        (O.g_cross (innerX O s) s.lambdak -
          Matrix.vecMul (cgOut O s).1
            (Matrix.transpose (O.h_crossed (innerX O s) s.lambdak)))) := by
  have hgr : O.g_cross (innerX O s) s.lambdak -
      Matrix.vecMul (cgOut O s).1
        (Matrix.transpose (O.h_crossed (innerX O s) s.lambdak)) =
      hypergrad O s := by
    rw [Matrix.vecMul_transpose]
    rfl
  rw [hgr]
  rcases step_ok_inv hok with ⟨-, hc⟩
  rcases hc with ⟨hL, -, rfl⟩ | ⟨L, e1, -, rfl, hcase⟩
  · refine ⟨rfl, ?_⟩
    intro L0 hL0
    rw [hL] at hL0
    exact absurd hL0 (by simp)
  · refine ⟨rfl, ?_⟩
    intro L0 hL0
    rcases hcase with ⟨hL, -, -⟩ | hsome
    · rw [hL] at hL0
      exact absurd hL0 (by simp)
    · rw [hsome] at hL0
      cases hL0
      rfl

/-- **C2.** In every stepping iteration (`L_lambda` initialized), the new
hyperparameter vector `lambdak - (1/L) * grad_lambda` is committed
unconditionally; the sufficient-decrease inequality (with `C = 1`,
`incr = ‖λ_new − λ_old‖`, the decayed tolerance and the pre-decay
tolerance) only tunes `L`: `L` is multiplied by exactly `0.8` when it
holds and by exactly `1.2` otherwise, with no rollback of `lambdak`. -/
theorem C2_unconditional_commit_L_tuning {d p : ℕ} (O : Oracles d p)
    (mode : TolMode) (it : ℕ) (s s' : HState d p) (L : ℝ)
    (hL : s.L_lambda = some L) (hok : step O mode it s = Except.ok s') :
    s'.lambdak = s.lambdak - (1 / L) • hypergrad O s ∧
    (suffCond (gval O s) s.g_func_old s'.epsilon_tol s.epsilon_tol
        (l2norm (s'.lambdak - s.lambdak)) L →
      s'.L_lambda = some (L * 0.8)) ∧
    (¬ suffCond (gval O s) s.g_func_old s'.epsilon_tol s.epsilon_tol
        (l2norm (s'.lambdak - s.lambdak)) L →
      s'.L_lambda = some (L * 1.2)) := by
  rcases step_ok_inv hok with ⟨-, hc⟩
  rcases hc with ⟨hnone, -, -⟩ | ⟨L1, e1, -, rfl, hcase⟩
  · rw [hL] at hnone
    exact absurd hnone (by simp)
  · have hLL : L1 = L := by
      rcases hcase with ⟨hnone, -, -⟩ | hsome
      · rw [hL] at hnone
        exact absurd hnone (by simp)
      · rw [hL] at hsome
        cases hsome
        rfl
    subst hLL
    refine ⟨rfl, ?_, ?_⟩
    · intro hcnd
      simp only [stepOut] at hcnd ⊢
      rw [if_pos hcnd]
    · intro hcnd
      simp only [stepOut] at hcnd ⊢
      rw [if_neg hcnd]

/-- **C3 counterexample.** In `'exact'` mode a first iteration whose
hypergradient is exactly zero takes the degenerate branch, which
multiplies the tolerance by `0.1` with no floor: the resulting state —
the one the next iteration runs with — has `epsilon_tol = 1e-25`,
strictly below the `1e-24` floor the claim asserts for every
iteration. -/
theorem C3_counterexample :
    step Od TolMode.exact 1 sExact = Except.ok (degOut Od sExact) ∧
    (degOut Od sExact).epsilon_tol < exact_epsilon := by
  refine ⟨demo_deg_exact, ?_⟩
  have h : (degOut Od sExact).epsilon_tol = exact_epsilon * 0.1 := by
    simp [degOut, sExact, initState]
  rw [h]
  unfold exact_epsilon
  norm_num

/-- **C3 (amended).** The inner tolerance is at least `1e-24` at
initialization (in all modes) and after every iteration that takes a
step (the decayed value is floored at `exact_epsilon`); an iteration
through the degenerate-gradient branch, however, multiplies the
tolerance by `0.1` without flooring, so only non-degenerate iterations
preserve the bound. -/
theorem C3_amended_tolerance_floor {d p : ℕ} (O : Oracles d p)
    (mode mode' : TolMode) (it : ℕ) (s s' : HState d p)
    (x0 : Fin d → ℝ) (l0 : Fin p → ℝ)
    (hok : step O mode it s = Except.ok s')
    (hnd : ¬ (s.L_lambda = none ∧ l2norm (hypergrad O s) = 0)) :
    exact_epsilon ≤ (initState (p := p) x0 l0 mode').epsilon_tol ∧
    exact_epsilon ≤ s'.epsilon_tol := by
  constructor
  · cases mode' <;>
      simp [initState, exact_epsilon, epsilon_tol_init] <;> norm_num
  · rcases step_ok_inv hok with ⟨-, hc⟩
    rcases hc with ⟨hL, hg, -⟩ | ⟨L, e1, -, rfl, -⟩
    · exact absurd ⟨hL, hg⟩ hnd
    · simp only [stepOut]
      exact le_max_right _ _

/-- **C4.** At the tolerance-decay step of iteration `it` the new
tolerance is, per mode: `'exact'` the machine-precision-scale constant,
`'exponential'` `0.5` times the previous tolerance, `'quadratic'`
`epsilon_tol_init / it²`, `'cubic'` `epsilon_tol_init / it³`; and in every
mode the result is floored at `exact_epsilon`. -/
theorem C4_tolerance_decay_modes {d p : ℕ} (O : Oracles d p)
    (mode : TolMode) (it : ℕ) (s s' : HState d p)
    (hok : step O mode it s = Except.ok s')
    (hnd : ¬ (s.L_lambda = none ∧ l2norm (hypergrad O s) = 0)) :
    (mode = TolMode.exact →
      s'.epsilon_tol = max 1e-24 exact_epsilon) ∧
    (mode = TolMode.exponential →
      s'.epsilon_tol = max (s.epsilon_tol * 0.5) exact_epsilon) ∧
    (mode = TolMode.quadratic →
      s'.epsilon_tol = max (epsilon_tol_init / (it : ℝ) ^ (2 : ℕ)) exact_epsilon) ∧
    (mode = TolMode.cubic →
      s'.epsilon_tol = max (epsilon_tol_init / (it : ℝ) ^ (3 : ℕ)) exact_epsilon) := by
  rcases step_ok_inv hok with ⟨-, hc⟩
  rcases hc with ⟨hL, hg, -⟩ | ⟨L, e1, hd, rfl, -⟩
  · exact absurd ⟨hL, hg⟩ hnd
  · refine ⟨?_, ?_, ?_, ?_⟩ <;> intro hmode <;> subst hmode <;>
      simp only [stepOut] <;>
      · unfold decay at hd
        cases hd
        rfl

/-- **C5.** `L_lambda` is initialized exactly on the first iteration
whose hypergradient norm is nonzero, to `5 * ‖grad_lambda‖` (the step of
that iteration uses this value, and the end-of-iteration tuning leaves
`5‖g‖·0.8` or `5‖g‖·1.2`); from then on `L_lambda` stays strictly
positive for the rest of the run, one iteration and `k` iterations at a
time. -/
theorem C5_L_initialization_and_positivity {d p : ℕ} (O : Oracles d p)
    (mode : TolMode) (it : ℕ) (s s' : HState d p)
    (hok : step O mode it s = Except.ok s') :
    (s.L_lambda = none → l2norm (hypergrad O s) ≠ 0 →
      s'.lambdak = s.lambdak -
        (1 / (5 * l2norm (hypergrad O s))) • hypergrad O s ∧
      (s'.L_lambda = some (5 * l2norm (hypergrad O s) * 0.8) ∨
        s'.L_lambda = some (5 * l2norm (hypergrad O s) * 1.2))) ∧
    ((∀ L0, s.L_lambda = some L0 → 0 < L0) →
      ∀ L', s'.L_lambda = some L' → 0 < L') ∧
    (∀ (k it0 : ℕ) (t t' : HState d p),
      (∀ L0, t.L_lambda = some L0 → 0 < L0) →
      loopFrom O mode it0 k t = Except.ok t' →
      ∀ L', t'.L_lambda = some L' → 0 < L') := by
  refine ⟨?_, fun hpos => step_L_pos hok hpos, loopFrom_L_pos O mode⟩
  intro hL hg
  rcases step_ok_inv hok with ⟨-, hc⟩
  rcases hc with ⟨-, hg0, -⟩ | ⟨L, e1, -, rfl, hcase⟩
  · exact absurd hg0 hg
  · have hLval : L = 5 * l2norm (hypergrad O s) := by
      rcases hcase with ⟨-, -, h5⟩ | hsome
      · exact h5
      · rw [hL] at hsome
        exact absurd hsome (by simp)
    subst hLval
    refine ⟨rfl, ?_⟩
    simp only [stepOut, Option.some.injEq]
    by_cases hcnd : suffCond (gval O s) s.g_func_old (max e1 exact_epsilon)
        s.epsilon_tol
        (l2norm ((s.lambdak -
          (1 / (5 * l2norm (hypergrad O s))) • hypergrad O s) - s.lambdak))
        (5 * l2norm (hypergrad O s))
    · exact Or.inl (by rw [if_pos hcnd])
    · exact Or.inr (by rw [if_neg hcnd])

/-- **C6.** An iteration reached with `L_lambda` uninitialized and a
hypergradient norm of exactly zero leaves `L_lambda` uninitialized,
multiplies the inner tolerance by `0.1`, performs no `lambdak` update,
and does not consume a step (it also leaves `g_func_old` untouched); this
covers in particular the very first iteration. -/
theorem C6_degenerate_gradient_skip {d p : ℕ} (O : Oracles d p)
    (mode : TolMode) (it : ℕ) (s : HState d p)
    (hcg : (cgOut O s).2 = true) (hL : s.L_lambda = none)
    (hg : l2norm (hypergrad O s) = 0) :
    step O mode it s = Except.ok (degOut O s) ∧
    (degOut O s).L_lambda = none ∧
    (degOut O s).epsilon_tol = s.epsilon_tol * 0.1 ∧
    (degOut O s).lambdak = s.lambdak ∧
    (degOut O s).g_func_old = s.g_func_old := by
  refine ⟨step_eq_deg O mode it s hcg hL hg, ?_, rfl, rfl, rfl⟩
  simp only [degOut]
  exact hL

/-- **C7 counterexample.** With maximum outer iterations `m = 1` (a valid
configuration on which nothing raises) the routine executes zero outer
iterations, not one: the Python loop is `for it in range(1, maxiter)`.
No oracle is ever invoked (`calls.sol = 0`, not `1`), and the initial
`(x0, lambda0)` is returned unchanged with status `0`. -/
theorem C7_counterexample :
    minimizeAux Od (fun _ => 0) none (fun _ => 0) 1 20 TolMode.exponential =
      Except.ok sExp ∧
    sExp.calls.sol = 0 ∧ ¬ sExp.calls.sol = 1 ∧
    minimize_lbfgsb Od (fun _ => 0) none (fun _ => 0) 1 20
      TolMode.exponential = Except.ok (sExp.x0, sExp.lambdak, 0) := by
  have h : minimizeAux Od (fun _ => 0) none (fun _ => 0) 1 20
      TolMode.exponential = Except.ok sExp := by
    unfold minimizeAux
    dsimp only
    rw [if_neg (by simp), if_neg (by norm_num)]
    simp only [Nat.sub_self, loopFrom]
    rfl
  refine ⟨h, rfl, by simp [sExp, initState], ?_⟩
  unfold minimize_lbfgsb
  rw [h]
  rfl

/-- **C7 (amended).** For every configuration with maximum outer
iterations `m` on which no oracle call and no internal check raises, the
controller executes exactly `m - 1` outer iterations (the loop runs
`it = 1, …, m-1`), each invoking the inner-solution oracle, the
Hessian-operator builder, the Krylov solve, both cross-derivative oracles
and the outer objective/gradient oracle exactly once, and returns
`(x, λ, 0)` — the status code is always `0`. -/
theorem C7_amended_iteration_count {d p : ℕ} (O : Oracles d p)
    (x0 : Fin d → ℝ) (bounds : Option (List (Option ℝ × Option ℝ)))
    (l0 : Fin p → ℝ) (m : ℕ) (maxls : ℤ) (mode : TolMode)
    (s' : HState d p)
    (hok : minimizeAux O x0 bounds l0 m maxls mode = Except.ok s') :
    s'.calls.sol = m - 1 ∧ s'.calls.hess = m - 1 ∧ s'.calls.gfg = m - 1 ∧
    s'.calls.cg = m - 1 ∧ s'.calls.gcross = m - 1 ∧
    s'.calls.hcross = m - 1 ∧
    minimize_lbfgsb O x0 bounds l0 m maxls mode =
      Except.ok (s'.x0, s'.lambdak, 0) := by
  have hloop := minimizeAux_ok_inv hok
  have hcalls := loopFrom_calls O mode (m - 1) 1 _ _ hloop
  simp only [initState] at hcalls
  refine ⟨?_, ?_, ?_, ?_, ?_, ?_, ?_⟩
  · omega
  · omega
  · omega
  · omega
  · omega
  · omega
  · unfold minimize_lbfgsb
    rw [hok]
    rfl

/-- **C8.** Whenever the Krylov solve reports non-convergence
(`success is False`), the iteration raises `ValueError` immediately and
the whole remaining loop aborts with that error: no retry, no fallback,
no further iterations. -/
theorem C8_cg_failure_aborts {d p : ℕ} (O : Oracles d p) (mode : TolMode)
    (it : ℕ) (s : HState d p) (hcg : (cgOut O s).2 = false) :
    step O mode it s = Except.error HErr.cgFail ∧
    (∀ k, loopFrom O mode it (k + 1) s = Except.error HErr.cgFail) := by
  have h1 := step_eq_fail O mode it s hcg
  refine ⟨h1, fun k => ?_⟩
  simp only [loopFrom]
  rw [h1]

/-- **C9 counterexample.** A call with the invalid tolerance-decrease
mode `other` and `maxiter = 1` raises nothing: the `NotImplementedError`
dispatch sits inside the loop body, which never runs, so the routine
returns normally with status `0` — contradicting the claim that every
call with an invalid configuration raises. -/
theorem C9_counterexample :
    minimize_lbfgsb Od (fun _ => 0) none (fun _ => 0) 1 20 TolMode.other =
      Except.ok ((fun _ => 0 : Fin 1 → ℝ), (fun _ => 0 : Fin 1 → ℝ), 0) := by
  unfold minimize_lbfgsb minimizeAux
  dsimp only
  rw [if_neg (by simp), if_neg (by norm_num)]
  simp only [Nat.sub_self, loopFrom]
  rfl

/-- **C9 (amended).** A bounds list whose length differs from the length
of `x0` raises `ValueError` at entry for every call; with valid bounds, a
non-positive `maxls` raises `ValueError` at entry for every call; an
unrecognized tolerance-decrease mode raises `NotImplementedError` at the
first iteration that reaches the tolerance-decay step (any iteration past
the cg check that is not the degenerate-gradient `continue`), with no
fallback or retry — but a call that never reaches a decay step returns
normally. -/
theorem C9_amended_validation {d p : ℕ} (O : Oracles d p)
    (x0 : Fin d → ℝ) (l0 : Fin p → ℝ) (m : ℕ) (maxls : ℤ)
    (mode : TolMode) (bs : List (Option ℝ × Option ℝ)) :
    (bs.length ≠ d →
      minimizeAux O x0 (some bs) l0 m maxls mode =
        Except.error HErr.boundsLen) ∧
    (maxls ≤ 0 →
      minimizeAux O x0 none l0 m maxls mode =
        Except.error HErr.maxlsNonpos) ∧
    (∀ (it : ℕ) (s : HState d p), (cgOut O s).2 = true →
      ¬ (s.L_lambda = none ∧ l2norm (hypergrad O s) = 0) →
      step O TolMode.other it s = Except.error HErr.notImpl) := by
  refine ⟨?_, ?_, ?_⟩
  · intro hlen
    unfold minimizeAux
    dsimp only
    rw [if_pos (by simpa using hlen)]
  · intro hml
    unfold minimizeAux
    dsimp only
    rw [if_neg (by simp), if_pos (by omega)]
  · intro it s hcg hnd
    cases hL : s.L_lambda with
    | none =>
      have hg : l2norm (hypergrad O s) ≠ 0 := fun h => hnd ⟨hL, h⟩
      rw [step_eq_body_none O TolMode.other it s hcg hL hg]
      exact stepBody_other O it s _
    | some L =>
      rw [step_eq_body_some O TolMode.other it s L hcg hL]
      exact stepBody_other O it s L

/-- **C10.** Because `g_func_old` starts at `np.inf` (and stays there
through degenerate iterations), the iteration that initializes
`L_lambda` always satisfies the sufficient-decrease inequality — its
right-hand side is infinite — so after that first step
`L_lambda = 0.8 · 5 · ‖grad_lambda‖ = 4 · ‖grad_lambda‖` of the first
nonzero hypergradient.  (In the embedding over ℝ the outer loss returned
by the oracle is always a finite real.) -/
theorem C10_first_step_shrinks_L {d p : ℕ} (O : Oracles d p)
    (mode : TolMode) (it : ℕ) (s s' : HState d p)
    (hok : step O mode it s = Except.ok s')
    (hL : s.L_lambda = none) (htop : s.g_func_old = ⊤)
    (hg : l2norm (hypergrad O s) ≠ 0) :
    suffCond (gval O s) s.g_func_old s'.epsilon_tol s.epsilon_tol
      (l2norm (s'.lambdak - s.lambdak)) (5 * l2norm (hypergrad O s)) ∧
    s'.L_lambda = some (5 * l2norm (hypergrad O s) * 0.8) ∧
    5 * l2norm (hypergrad O s) * 0.8 = 4 * l2norm (hypergrad O s) ∧
    (∀ (y0 : Fin d → ℝ) (u0 : Fin p → ℝ) (mode' : TolMode),
      (initState (d := d) (p := p) y0 u0 mode').g_func_old = ⊤) ∧
    (∀ t : HState d p, (degOut O t).g_func_old = t.g_func_old) := by
  have hcnd0 : ∀ epsNew epsOld incr : ℝ,
      suffCond (gval O s) s.g_func_old epsNew epsOld incr
        (5 * l2norm (hypergrad O s)) := by
    intro epsNew epsOld incr
    rw [htop]
    exact suffCond_top _ _ _ _ _
  refine ⟨hcnd0 _ _ _, ?_, by ring, fun _ _ _ => rfl, fun _ => rfl⟩
  rcases step_ok_inv hok with ⟨-, hc⟩
  rcases hc with ⟨-, hg0, -⟩ | ⟨L, e1, -, rfl, hcase⟩
  · exact absurd hg0 hg
  · have hLval : L = 5 * l2norm (hypergrad O s) := by
      rcases hcase with ⟨-, -, h5⟩ | hsome
      · exact h5
      · rw [hL] at hsome
        exact absurd hsome (by simp)
    subst hLval
    simp only [stepOut, Option.some.injEq]
    rw [if_pos (hcnd0 _ _ _)]

/-! ### Witnesses -/

lemma hypergrad_Og_ne : l2norm (hypergrad Og sExp) ≠ 0 := by
  rw [hypergrad_Og, l2norm_ones]
  norm_num

lemma demo_deg_exp :
    step Od TolMode.exponential 1 sExp = Except.ok (degOut Od sExp) :=
  step_eq_deg Od TolMode.exponential 1 sExp rfl rfl
    (by rw [hypergrad_Od, l2norm_zero])

lemma demo_minimizeAux2 :
    minimizeAux Od (fun _ => 0) none (fun _ => 0) 2 20 TolMode.exponential =
      Except.ok (degOut Od sExp) := by
  unfold minimizeAux
  dsimp only
  rw [if_neg (by simp), if_neg (by norm_num)]
  show loopFrom Od TolMode.exponential 1 1 sExp = Except.ok (degOut Od sExp)
  simp only [loopFrom]
  rw [demo_deg_exp]

/-- Witness for C1 at a concrete stepping iteration. -/
theorem C1_witness :
    (stepOut Od sStep 1 (sStep.epsilon_tol * 0.5)).old_grads =
      sStep.old_grads ++
        [l2norm (Od.g_cross (innerX Od sStep) sStep.lambdak -
          Matrix.vecMul (cgOut Od sStep).1
            (Matrix.transpose (Od.h_crossed (innerX Od sStep) sStep.lambdak)))] ∧
    (stepOut Od sStep 1 (sStep.epsilon_tol * 0.5)).lambdak =
      sStep.lambdak - ((1 : ℝ) / 1) •
        (Od.g_cross (innerX Od sStep) sStep.lambdak -
          Matrix.vecMul (cgOut Od sStep).1
            (Matrix.transpose (Od.h_crossed (innerX Od sStep) sStep.lambdak))) :=
  ⟨(C1_hypergradient_formula Od TolMode.exponential 1 sStep _
      demo_step_sStep).1,
    (C1_hypergradient_formula Od TolMode.exponential 1 sStep _
      demo_step_sStep).2 1 rfl⟩

/-- Witness for C2 at a concrete stepping iteration (the stored previous
loss is `np.inf`, so the sufficient-decrease test holds and `L` shrinks
by exactly `0.8`). -/
theorem C2_witness :
    (stepOut Od sStep 1 (sStep.epsilon_tol * 0.5)).lambdak =
      sStep.lambdak - ((1 : ℝ) / 1) • hypergrad Od sStep ∧
    (stepOut Od sStep 1 (sStep.epsilon_tol * 0.5)).L_lambda =
      some (1 * 0.8) :=
  ⟨(C2_unconditional_commit_L_tuning Od TolMode.exponential 1 sStep _ 1 rfl
      demo_step_sStep).1,
    (C2_unconditional_commit_L_tuning Od TolMode.exponential 1 sStep _ 1 rfl
      demo_step_sStep).2.1 (suffCond_top _ _ _ _ _)⟩

/-- Witness for the amended C3 at a concrete stepping iteration. -/
theorem C3_witness :
    exact_epsilon ≤
      (initState (fun _ => 0 : Fin 1 → ℝ) (fun _ => 0 : Fin 1 → ℝ)
        TolMode.exact).epsilon_tol ∧
    exact_epsilon ≤ (stepOut Od sStep 1 (sStep.epsilon_tol * 0.5)).epsilon_tol :=
  C3_amended_tolerance_floor Od TolMode.exponential TolMode.exact 1 sStep _
    (fun _ => 0) (fun _ => 0) demo_step_sStep (by simp [sStep])

/-- Witness for C4 at a concrete `'exponential'`-mode iteration. -/
theorem C4_witness :
    (stepOut Od sStep 1 (sStep.epsilon_tol * 0.5)).epsilon_tol =
      max (sStep.epsilon_tol * 0.5) exact_epsilon :=
  (C4_tolerance_decay_modes Od TolMode.exponential 1 sStep _
    demo_step_sStep (by simp [sStep])).2.1 rfl

/-- Witness for C5 at a concrete first iteration with a nonzero
hypergradient. -/
theorem C5_witness :
    (stepOut Og sExp (5 * l2norm (hypergrad Og sExp))
        (sExp.epsilon_tol * 0.5)).lambdak =
      sExp.lambdak -
        (1 / (5 * l2norm (hypergrad Og sExp))) • hypergrad Og sExp ∧
    ((stepOut Og sExp (5 * l2norm (hypergrad Og sExp))
        (sExp.epsilon_tol * 0.5)).L_lambda =
      some (5 * l2norm (hypergrad Og sExp) * 0.8) ∨
      (stepOut Og sExp (5 * l2norm (hypergrad Og sExp))
        (sExp.epsilon_tol * 0.5)).L_lambda =
      some (5 * l2norm (hypergrad Og sExp) * 1.2)) :=
  (C5_L_initialization_and_positivity Og TolMode.exponential 1 sExp _
    demo_step_Og).1 rfl hypergrad_Og_ne

/-- Witness for C6 at a concrete degenerate first iteration. -/
theorem C6_witness :
    step Od TolMode.exact 1 sExact = Except.ok (degOut Od sExact) ∧
    (degOut Od sExact).L_lambda = none ∧
    (degOut Od sExact).epsilon_tol = sExact.epsilon_tol * 0.1 ∧
    (degOut Od sExact).lambdak = sExact.lambdak ∧
    (degOut Od sExact).g_func_old = sExact.g_func_old :=
  C6_degenerate_gradient_skip Od TolMode.exact 1 sExact rfl rfl
    (by rw [hypergrad_Od, l2norm_zero])

/-- Witness for the amended C7: a run with `maxiter = 2` performs exactly
one iteration, invoking each oracle exactly once, and returns status 0. -/
theorem C7_witness :
    (degOut Od sExp).calls.sol = 2 - 1 ∧
    (degOut Od sExp).calls.hess = 2 - 1 ∧
    (degOut Od sExp).calls.gfg = 2 - 1 ∧
    (degOut Od sExp).calls.cg = 2 - 1 ∧
    (degOut Od sExp).calls.gcross = 2 - 1 ∧
    (degOut Od sExp).calls.hcross = 2 - 1 ∧
    minimize_lbfgsb Od (fun _ => 0) none (fun _ => 0) 2 20
      TolMode.exponential =
      Except.ok ((degOut Od sExp).x0, (degOut Od sExp).lambdak, 0) :=
  C7_amended_iteration_count Od (fun _ => 0) none (fun _ => 0) 2 20
    TolMode.exponential _ demo_minimizeAux2

/-- Witness for C8 with a cg oracle that reports non-convergence. -/
theorem C8_witness :
    step Ofail TolMode.exponential 1 sExp = Except.error HErr.cgFail ∧
    loopFrom Ofail TolMode.exponential 1 1 sExp =
      Except.error HErr.cgFail := by
  refine ⟨(C8_cg_failure_aborts Ofail TolMode.exponential 1 sExp rfl).1, ?_⟩
  exact (C8_cg_failure_aborts Ofail TolMode.exponential 1 sExp rfl).2 0

/-- Witness for the amended C9: a mismatched bounds list, a zero `maxls`,
and an unrecognized mode reaching the decay step each raise as stated. -/
theorem C9_witness :
    minimizeAux Od (fun _ => 0) (some [(none, none), (none, none)])
      (fun _ => 0) 5 20 TolMode.exponential =
      Except.error HErr.boundsLen ∧
    minimizeAux Od (fun _ => 0) none (fun _ => 0) 5 0
      TolMode.exponential = Except.error HErr.maxlsNonpos ∧
    step Od TolMode.other 1 sStep = Except.error HErr.notImpl :=
  ⟨(C9_amended_validation Od (fun _ => 0) (fun _ => 0) 5 20
      TolMode.exponential [(none, none), (none, none)]).1 (by simp),
    (C9_amended_validation Od (fun _ => 0) (fun _ => 0) 5 0
      TolMode.exponential []).2.1 le_rfl,
    (C9_amended_validation Od (fun _ => 0) (fun _ => 0) 5 20
      TolMode.other []).2.2 1 sStep rfl (by simp [sStep])⟩

/-- Witness for C10 at a concrete first iteration with a nonzero
hypergradient: the sufficient-decrease test holds against the infinite
stored loss and `L` ends at `4 · ‖grad_lambda‖`. -/
theorem C10_witness :
    suffCond (gval Og sExp) sExp.g_func_old
      (stepOut Og sExp (5 * l2norm (hypergrad Og sExp))
        (sExp.epsilon_tol * 0.5)).epsilon_tol sExp.epsilon_tol
      (l2norm ((stepOut Og sExp (5 * l2norm (hypergrad Og sExp))
        (sExp.epsilon_tol * 0.5)).lambdak - sExp.lambdak))
      (5 * l2norm (hypergrad Og sExp)) ∧
    (stepOut Og sExp (5 * l2norm (hypergrad Og sExp))
        (sExp.epsilon_tol * 0.5)).L_lambda =
      some (5 * l2norm (hypergrad Og sExp) * 0.8) ∧
    5 * l2norm (hypergrad Og sExp) * 0.8 = 4 * l2norm (hypergrad Og sExp) := by
  have h := C10_first_step_shrinks_L Og TolMode.exponential 1 sExp _
    demo_step_Og rfl rfl hypergrad_Og_ne
  exact ⟨h.1, h.2.1, h.2.2.1⟩

end Hoag
